import Mathlib

set_option autoImplicit false

/-!
Shallow embedding of the text-extraction core of `reviewer.py`
(NoSoliciting.Reviewer): the tagged-block scanner `get_text`, the
variable-length integer decoder `get_int`, the substitution pass
`do_replacements`, and the field pipeline of `process_item`.

Bytes are modelled as `Nat`, the `BytesIO` cursor as the list of bytes not
yet consumed.  Python exceptions raised during a decode are modelled as an
`Except` error, named by the spec's taxonomy: `IndexError` raised by
`cursor.read(1)[0]` at end of input is `truncatedInput`, the failed
`assert` is `format`, `UnicodeDecodeError` from `.decode("utf-8")` is
`encoding`.  A Python `read(n)` clamps at end of buffer and `read(-1)`
reads everything that remains; `pyRead` reproduces both.
-/

/-- Spec error taxonomy for a decode call. -/
inductive DecodeError where
  | truncatedInput
  | format
  | encoding
deriving DecidableEq, Repr

/-- Control byte opening an embedded block (`START = 2` in `get_text`). -/
def START : Nat := 2

/-- Control byte closing an embedded block (`END = 3` in `get_text`). -/
def END : Nat := 3

/-- Remaining bytes after `cursor.read(n)` for a Python `BytesIO`: a negative
count reads to the end of the buffer, otherwise the read clamps at the end. -/
def pyRead (n : Int) (l : List Nat) : List Nat :=
  if n < 0 then [] else l.drop n.toNat

/-- `int.from_bytes(result, byteorder="little")`. -/
def fromLE : List Nat → Nat
  | [] => 0
  | b :: rest => b + 256 * fromLE rest

/-- The `for i in range(4)` loop of `get_int`: for each index `i` in `is`
whose bit is set in `mask`, consume one byte (`cursor.read(1)[0]`, an
`IndexError` at end of input) and store it at offset `3 - i` of `result`. -/
def maskLoop (mask : Nat) : List Nat → List Nat → List Nat →
    Except DecodeError (List Nat × List Nat)
  | [], result, cur => .ok (result, cur)
  | i :: is, result, cur =>
    if mask &&& (1 <<< i) ≠ 0 then
      match cur with
      | [] => .error .truncatedInput
      | b :: cur' => maskLoop mask is (result.set (3 - i) b) cur'
    else
      maskLoop mask is result cur

/-- `get_int(cursor)` of `reviewer.py`: read the marker byte; a marker below
`0xD0` encodes `marker - 1` directly; otherwise `(marker + 1) & 0xF` is a
presence mask selecting which bytes of a zero-initialized 4-byte buffer are
read from the cursor, and the buffer is returned as an unsigned
little-endian integer.  Returns the value and the bytes left on the cursor. -/
def get_int (input : List Nat) : Except DecodeError (Int × List Nat) :=
  match input with
  | [] => .error .truncatedInput
  | marker :: rest =>
    if marker < 0xD0 then
      .ok ((marker : Int) - 1, rest)
    else
      match maskLoop ((marker + 1) &&& 0xF) [0, 1, 2, 3] [0, 0, 0, 0] rest with
      | .error e => .error e
      | .ok (result, cur) => .ok ((fromLE result : Int), cur)

/-- The `while cursor.tell() < len(input_data)` loop of `get_text`, with the
cursor as the list of unread bytes.  `fuel` bounds the number of iterations;
one iteration consumes at least the byte it reads, so `fuel = input.length`
always suffices (`scanner_terminates`).  Running out of fuel yields `none`.
On `START`: `cursor.read(1)` discards the kind byte (clamping at end of
input), `get_int` yields the block length, `cursor.read(length)` skips the
payload (clamping; a negative length reads to the end), and the next byte
must exist (`IndexError` otherwise) and equal `END` (the `assert`). -/
def scanGo : Nat → List Nat → Option (Except DecodeError (List Nat))
  | _, [] => some (.ok [])
  | 0, _ :: _ => none
  | fuel + 1, byte :: rest =>
    if byte = START then
      match get_int (rest.drop 1) with
      | .error e => some (.error e)
      | .ok (length, rest2) =>
        match pyRead length rest2 with
        | [] => some (.error .truncatedInput)
        | endByte :: rest4 =>
          if endByte = END then scanGo fuel rest4
          else some (.error .format)
    else
      match scanGo fuel rest with
      | none => none
      | some (.error e) => some (.error e)
      | some (.ok acc) => some (.ok (byte :: acc))

/-- The literal-byte accumulator produced by the scanner loop of `get_text`
(the content of `result` before the final UTF-8 decode). -/
def scanBytes (input : List Nat) : Except DecodeError (List Nat) :=
  (scanGo input.length input).getD (.error .truncatedInput)

/-- Whether `b` is a UTF-8 continuation byte. -/
def isCont (b : Nat) : Bool :=
  decide (0x80 ≤ b ∧ b ≤ 0xBF)

/-- Strict UTF-8 decoding of a byte list into code points, as performed by
Python's `bytes.decode("utf-8")`: rejects continuation bytes in lead
position, overlong encodings, surrogates and values above `0x10FFFF`;
`none` models `UnicodeDecodeError`. -/
def utf8Decode : List Nat → Option (List Char)
  | [] => some []
  | b :: rest =>
    if b < 0x80 then
      (utf8Decode rest).map (fun cs => Char.ofNat b :: cs)
    else if b < 0xC2 then
      none
    else if b ≤ 0xDF then
      match rest with
      | b1 :: rest1 =>
        if isCont b1 then
          (utf8Decode rest1).map
            (fun cs => Char.ofNat ((b - 0xC0) * 64 + (b1 - 0x80)) :: cs)
        else none
      | [] => none
    else if b ≤ 0xEF then
      match rest with
      | b1 :: b2 :: rest2 =>
        if (if b = 0xE0 then decide (0xA0 ≤ b1 ∧ b1 ≤ 0xBF)
            else if b = 0xED then decide (0x80 ≤ b1 ∧ b1 ≤ 0x9F)
            else isCont b1) && isCont b2 then
          (utf8Decode rest2).map
            (fun cs =>
              Char.ofNat ((b - 0xE0) * 4096 + (b1 - 0x80) * 64 + (b2 - 0x80)) :: cs)
        else none
      | _ => none
    else if b ≤ 0xF4 then
      match rest with
      | b1 :: b2 :: b3 :: rest3 =>
        if (if b = 0xF0 then decide (0x90 ≤ b1 ∧ b1 ≤ 0xBF)
            else if b = 0xF4 then decide (0x80 ≤ b1 ∧ b1 ≤ 0x8F)
            else isCont b1) && isCont b2 && isCont b3 then
          (utf8Decode rest3).map
            (fun cs =>
              Char.ofNat ((b - 0xF0) * 262144 + (b1 - 0x80) * 4096
                + (b2 - 0x80) * 64 + (b3 - 0x80)) :: cs)
        else none
      | _ => none
    else none

/-- `get_text(input_data)` of `reviewer.py`: run the scanner loop over the
buffer and decode the literal accumulator as strict UTF-8. -/
def get_text (input : List Nat) : Except DecodeError String :=
  match scanBytes input with
  | .error e => .error e
  | .ok lits =>
    match utf8Decode lits with
    | none => .error .encoding
    | some cs => .ok (String.mk cs)

/-- One step of Python's `str.replace(old, new)` scan for a nonempty `old`:
walk the text left to right, and at each position replace the leftmost,
non-overlapping occurrence of `old`.  `fuel` bounds the number of scan
positions; each step consumes at least one character, so `fuel = s.length`
suffices. -/
def replChars (old new : List Char) : Nat → List Char → List Char
  | _, [] => []
  | 0, s => s
  | fuel + 1, c :: rest =>
    if old.isPrefixOf (c :: rest) then
      new ++ replChars old new fuel (List.drop (old.length - 1) rest)
    else
      c :: replChars old new fuel rest

/-- Python's `str.replace(old, new)`: replaces every non-overlapping
occurrence of `old` left to right; an empty `old` inserts `new` before each
character and at the end. -/
def pyReplace (s old new : String) : String :=
  match old.toList with
  | [] => String.mk (new.toList ++ s.toList.foldr (fun c acc => c :: (new.toList ++ acc)) [])
  | o :: os => String.mk (replChars (o :: os) new.toList s.toList.length s.toList)

/-- Whitespace set of Python's argument-less `str.strip()`
(`Py_UNICODE_ISSPACE`): the ASCII whitespace `\t \n \v \f \r`, space, the
separator controls `\x1c`-`\x1f`, next line `U+0085`, and the Unicode
space/line/paragraph separators `U+00A0`, `U+1680`, `U+2000`-`U+200A`,
`U+2028`, `U+2029`, `U+202F`, `U+205F`, `U+3000`. -/
def pyIsSpace (c : Char) : Bool :=
  let n := c.toNat
  n = 0x20 || (0x9 ≤ n && n ≤ 0xD) || (0x1C ≤ n && n ≤ 0x1F) ||
  n = 0x85 || n = 0xA0 || n = 0x1680 || (0x2000 ≤ n && n ≤ 0x200A) ||
  n = 0x2028 || n = 0x2029 || n = 0x202F || n = 0x205F || n = 0x3000

/-- Python's `str.strip()`: drop leading and trailing whitespace. -/
def pyStrip (s : String) : String :=
  String.mk (((s.toList.dropWhile pyIsSpace).reverse.dropWhile pyIsSpace).reverse)

/-- `do_replacements(text)` of `reviewer.py`, with the ordered
`REPLACEMENTS` table passed explicitly (its module, `constants.py`, is
configuration outside the core): each `(needle, replacement)` pair is
applied in table order, each step's output feeding the next. -/
def do_replacements (table : List (String × String)) (text : String) : String :=
  table.foldl (fun t p => pyReplace t p.1 p.2) text

/-- The `.replace("\r\n", " ").replace("\r", " ").replace("\n", " ")` chain
applied to the content field in `process_item`. -/
def collapseNewlines (t : String) : String :=
  pyReplace (pyReplace (pyReplace t "\r\n" " ") "\r" " ") "\n" " "

/-- One report record at the core's boundary: the `sender` and `content`
byte buffers (already base64-probed upstream) and the metadata fields that
`process_item` passes through untouched. -/
structure ReportItem where
  sender : List Nat
  content : List Nat
  type : Int
  reason : String
  suggested_classification : String
  id : String

/-- The record `process_item` returns. -/
structure ProcessedItem where
  sender : String
  content : String
  type : Int
  reason : String
  suggested_classification : String
  id : String

/-- The field pipeline of `process_item` in `reviewer.py` (lines 95-102):
the sender text gets only the substitution table; the content text gets the
substitution table, then the line-terminator collapsing, then `strip()`;
the remaining fields pass through.  A decode failure in either byte field
aborts the call. -/
def process_item (table : List (String × String)) (it : ReportItem) :
    Except DecodeError ProcessedItem := do
  let s ← get_text it.sender
  let c ← get_text it.content
  .ok { sender := do_replacements table s,
        content := pyStrip (collapseNewlines (do_replacements table c)),
        type := it.type,
        reason := it.reason,
        suggested_classification := it.suggested_classification,
        id := it.id }

/-- A concrete record whose two byte fields both decode to `"a\r\nb"`. -/
def crlfItem : ReportItem :=
  ⟨[97, 13, 10, 98], [97, 13, 10, 98], 0, "", "", ""⟩

/-- The record `process_item` produces for `crlfItem` with an empty table. -/
def crlfProcessed : ProcessedItem :=
  ⟨"a\r\nb", "a b", 0, "", "", ""⟩

theorem maskLoop_length {mask : Nat} :
    ∀ {is result cur : List Nat} {r cur' : List Nat},
      maskLoop mask is result cur = .ok (r, cur') → cur'.length ≤ cur.length := by
  intro is
  induction is with
  | nil =>
    intro result cur r cur' h
    simp only [maskLoop] at h
    injection h with h'
    injection h' with h1 h2
    subst h2
    exact Nat.le_refl _
  | cons i is ih =>
    intro result cur r cur' h
    simp only [maskLoop] at h
    split at h
    · cases cur with
      | nil => simp at h
      | cons b cur2 => exact Nat.le_succ_of_le (ih h)
    · exact ih h

theorem get_int_length {l : List Nat} {v : Int} {l' : List Nat}
    (h : get_int l = .ok (v, l')) : l'.length ≤ l.length := by
  cases l with
  | nil => simp [get_int] at h
  | cons marker rest =>
    simp only [get_int] at h
    split at h
    · injection h with h'
      injection h' with h1 h2
      subst h2
      exact Nat.le_succ _
    · split at h
      · simp at h
      · rename_i result cur heq
        injection h with h'
        injection h' with h1 h2
        subst h2
        exact Nat.le_succ_of_le (maskLoop_length heq)

theorem pyRead_length (n : Int) (l : List Nat) : (pyRead n l).length ≤ l.length := by
  unfold pyRead
  split
  · simp
  · simp [List.length_drop]

theorem scanGo_fuel_eq : ∀ (f1 f2 : Nat) (input : List Nat),
    input.length ≤ f1 → input.length ≤ f2 → scanGo f1 input = scanGo f2 input := by
  intro f1
  induction f1 with
  | zero =>
    intro f2 input h1 h2
    have : input = [] := List.length_eq_zero.mp (Nat.le_zero.mp h1)
    subst this
    cases f2 <;> simp [scanGo]
  | succ f ih =>
    intro f2 input h1 h2
    cases input with
    | nil => cases f2 <;> simp [scanGo]
    | cons b rest =>
      have hr : rest.length ≤ f := by
        simp only [List.length_cons] at h1; omega
      cases f2 with
      | zero => simp at h2
      | succ f2' =>
        have hr2 : rest.length ≤ f2' := by
          simp only [List.length_cons] at h2; omega
        simp only [scanGo]
        by_cases hb : b = START
        · simp only [hb, if_pos]
          cases hgi : get_int (rest.drop 1) with
          | error e => simp
          | ok p =>
            obtain ⟨len, rest2⟩ := p
            have hlen2 : rest2.length ≤ rest.length := by
              have := get_int_length hgi
              have := List.length_drop 1 rest
              omega
            cases hpr : pyRead len rest2 with
            | nil => simp only [hpr]
            | cons e rest4 =>
              have hlen4 : rest4.length ≤ rest.length := by
                have := pyRead_length len rest2
                rw [hpr] at this
                simp only [List.length_cons] at this
                omega
              simp only [hpr]
              by_cases he : e = END
              · rw [if_pos he, if_pos he]
                exact ih f2' rest4 (le_trans hlen4 hr) (le_trans hlen4 hr2)
              · rw [if_neg he, if_neg he]
        · simp only [if_neg hb]
          rw [ih f2' rest hr hr2]

theorem scanGo_isSome : ∀ (fuel : Nat) (input : List Nat), input.length ≤ fuel →
    (scanGo fuel input).isSome = true := by
  intro fuel
  induction fuel with
  | zero =>
    intro input h
    have : input = [] := List.length_eq_zero.mp (Nat.le_zero.mp h)
    subst this
    simp [scanGo]
  | succ f ih =>
    intro input h
    cases input with
    | nil => simp [scanGo]
    | cons b rest =>
      have hr : rest.length ≤ f := by
        simp only [List.length_cons] at h; omega
      simp only [scanGo]
      by_cases hb : b = START
      · simp only [hb, if_pos]
        cases hgi : get_int (rest.drop 1) with
        | error e => simp
        | ok p =>
          obtain ⟨len, rest2⟩ := p
          have hlen2 : rest2.length ≤ rest.length := by
            have := get_int_length hgi
            have := List.length_drop 1 rest
            omega
          cases hpr : pyRead len rest2 with
          | nil => simp [hpr]
          | cons e rest4 =>
            have hlen4 : rest4.length ≤ rest.length := by
              have := pyRead_length len rest2
              rw [hpr] at this
              simp only [List.length_cons] at this
              omega
            simp only [hpr]
            by_cases he : e = END
            · rw [if_pos he]
              exact ih rest4 (le_trans hlen4 hr)
            · rw [if_neg he]
              rfl
      · simp only [if_neg hb]
        have := ih rest hr
        cases hsg : scanGo f rest with
        | none => rw [hsg] at this; simp at this
        | some r => cases r <;> simp

theorem scanBytes_cons_of_ne {b : Nat} (hb : b ≠ START) (rest : List Nat) :
    scanBytes (b :: rest) = (scanBytes rest).map (fun acc => b :: acc) := by
  unfold scanBytes
  obtain ⟨r, hr⟩ := Option.isSome_iff_exists.mp (scanGo_isSome rest.length rest (Nat.le_refl _))
  simp only [List.length_cons, scanGo, if_neg hb, hr]
  cases r <;> rfl

theorem scanBytes_cons_start (rest : List Nat) :
    scanBytes (START :: rest) =
      match get_int (rest.drop 1) with
      | .error e => .error e
      | .ok (length, rest2) =>
        match pyRead length rest2 with
        | [] => .error .truncatedInput
        | endByte :: rest4 =>
          if endByte = END then scanBytes rest4 else .error .format := by
  unfold scanBytes
  simp only [List.length_cons, scanGo, if_pos]
  cases hgi : get_int (rest.drop 1) with
  | error e => rfl
  | ok p =>
    obtain ⟨len, rest2⟩ := p
    have hlen2 : rest2.length ≤ rest.length := by
      have := get_int_length hgi
      have := List.length_drop 1 rest
      omega
    cases hpr : pyRead len rest2 with
    | nil =>
      simp only [hpr]
      rfl
    | cons e rest4 =>
      have hlen4 : rest4.length ≤ rest.length := by
        have := pyRead_length len rest2
        rw [hpr] at this
        simp only [List.length_cons] at this
        omega
      simp only [hpr]
      by_cases he : e = END
      · rw [if_pos he, if_pos he]
        rw [scanGo_fuel_eq rest.length rest4.length rest4 hlen4 (Nat.le_refl _)]
      · rw [if_neg he, if_neg he]
        rfl

theorem scanBytes_append_of_not_mem {pre : List Nat} (hpre : START ∉ pre)
    (rest : List Nat) :
    scanBytes (pre ++ rest) = (scanBytes rest).map (fun acc => pre ++ acc) := by
  induction pre with
  | nil =>
    simp only [List.nil_append]
    cases scanBytes rest <;> rfl
  | cons b pre ih =>
    have hb : b ≠ START := fun h => hpre (by simp [h])
    have hpre' : START ∉ pre := fun h => hpre (List.mem_cons_of_mem _ h)
    rw [List.cons_append, scanBytes_cons_of_ne hb, ih hpre']
    cases scanBytes rest <;> rfl

theorem scanBytes_no_start {l : List Nat} (h : START ∉ l) : scanBytes l = .ok l := by
  have h2 := scanBytes_append_of_not_mem h []
  rw [List.append_nil] at h2
  have h3 : scanBytes ([] : List Nat) = .ok [] := rfl
  rw [h2, h3]
  show Except.ok (l ++ []) = Except.ok l
  rw [List.append_nil]

theorem get_text_error {input : List Nat} {e : DecodeError}
    (h : scanBytes input = .error e) : get_text input = .error e := by
  unfold get_text
  rw [h]

theorem get_text_ok_scan {input lits : List Nat} (h : scanBytes input = .ok lits) :
    get_text input = (match utf8Decode lits with
      | none => Except.error DecodeError.encoding
      | some cs => Except.ok (String.mk cs)) := by
  unfold get_text
  rw [h]

theorem maskLoop_decode (p : Nat) (hp : p ≤ 15) (a b c d : Nat) (rest : List Nat) :
    maskLoop p [0, 1, 2, 3] [0, 0, 0, 0]
      ((if p &&& 1 ≠ 0 then [a] else []) ++ (if p &&& 2 ≠ 0 then [b] else []) ++
       (if p &&& 4 ≠ 0 then [c] else []) ++ (if p &&& 8 ≠ 0 then [d] else []) ++ rest) =
    .ok ([if p &&& 8 ≠ 0 then d else 0, if p &&& 4 ≠ 0 then c else 0,
          if p &&& 2 ≠ 0 then b else 0, if p &&& 1 ≠ 0 then a else 0], rest) := by
  interval_cases p <;> rfl

/-- Claim C1: for a marker byte `m ≥ 0xD0`, `get_int` computes the presence mask
`p = (m + 1) & 0xF` and, for bit positions `i = 0, 1, 2, 3` in ascending
order, consumes exactly one further byte per set bit and stores it at
offset `3 - i` of a zero-initialized 4-byte buffer (clear positions stay
zero); the value returned is that buffer read as an unsigned little-endian
32-bit integer (offset 0 is the least significant byte), and for `p = 0`
nothing beyond the marker is consumed and the value is `0`. -/
theorem varint_masked_decode (marker a b c d : Nat) (rest : List Nat)
    (h1 : 0xD0 ≤ marker) (h2 : marker < 256) :
    get_int (marker ::
      ((if (marker + 1) &&& 0xF &&& 1 ≠ 0 then [a] else []) ++
       (if (marker + 1) &&& 0xF &&& 2 ≠ 0 then [b] else []) ++
       (if (marker + 1) &&& 0xF &&& 4 ≠ 0 then [c] else []) ++
       (if (marker + 1) &&& 0xF &&& 8 ≠ 0 then [d] else []) ++ rest)) =
    .ok ((((if (marker + 1) &&& 0xF &&& 8 ≠ 0 then d else 0) +
       256 * (if (marker + 1) &&& 0xF &&& 4 ≠ 0 then c else 0) +
       65536 * (if (marker + 1) &&& 0xF &&& 2 ≠ 0 then b else 0) +
       16777216 * (if (marker + 1) &&& 0xF &&& 1 ≠ 0 then a else 0) : Nat) : Int),
      rest) := by
  have hlt : ¬ marker < 0xD0 := by omega
  have hp : (marker + 1) &&& 0xF ≤ 15 := Nat.and_le_right
  have harith : ∀ w x y z : Nat,
      w + 256 * (x + 256 * (y + 256 * (z + 256 * 0))) =
        w + 256 * x + 65536 * y + 16777216 * z := fun w x y z => by ring
  simp only [get_int, if_neg hlt]
  rw [maskLoop_decode ((marker + 1) &&& 0xF) hp a b c d rest]
  simp only [fromLE]
  rw [harith]

/-- Claim C2: for a marker byte `m < 0xD0`, `get_int` consumes only the marker
byte and returns `m - 1`; in particular marker `0x00` decodes to `-1` and
marker `0xCF` decodes to `206`. -/
theorem varint_small_decode (marker : Nat) (rest : List Nat) (h : marker < 0xD0) :
    get_int (marker :: rest) = .ok ((marker : Int) - 1, rest) ∧
    get_int (0 :: rest) = .ok (-1, rest) ∧
    get_int (0xCF :: rest) = .ok (206, rest) := by
  refine ⟨?_, ?_, ?_⟩
  · simp only [get_int, if_pos h]
  · rfl
  · simp only [get_int]
    norm_num

theorem varint_masked_decode_witness :
    0xD0 ≤ 0xDE ∧ (0xDE : Nat) < 256 ∧
    get_int [0xDE, 1, 2, 3, 4, 99] = .ok (16909060, [99]) :=
  ⟨by decide, by decide, varint_masked_decode 0xDE 1 2 3 4 [99] (by decide) (by decide)⟩

theorem varint_small_decode_witness :
    (0x2A : Nat) < 0xD0 ∧
    (get_int [0x2A, 7] = .ok (41, [7]) ∧
     get_int [0, 7] = .ok (-1, [7]) ∧
     get_int [0xCF, 7] = .ok (206, [7])) :=
  ⟨by decide, varint_small_decode 0x2A [7] (by decide)⟩

/-- Claim C3: when a block's skipped body (a `START`, the discarded kind byte,
the VarInt-decoded length and exactly that many payload bytes) is followed
by a byte that exists but is not `END`, the decode fails with the
`FormatError` of the missing-END assertion rather than returning a string. -/
theorem scanner_missing_end (pre : List Nat) (kind : Nat)
    (tail payload suffix : List Nat) (e : Nat)
    (hpre : START ∉ pre) (he : e ≠ END)
    (hint : get_int tail = .ok ((payload.length : Int), payload ++ e :: suffix)) :
    get_text (pre ++ START :: kind :: tail) = .error .format := by
  apply get_text_error
  rw [scanBytes_append_of_not_mem hpre, scanBytes_cons_start]
  have hdrop : (kind :: tail).drop 1 = tail := rfl
  rw [hdrop, hint]
  have hread : pyRead (payload.length : Int) (payload ++ e :: suffix) =
      e :: suffix := by
    unfold pyRead
    rw [if_neg (by omega : ¬ ((payload.length : Int) < 0)), Int.toNat_natCast]
    exact List.drop_left payload (e :: suffix)
  simp only [hread]
  rw [if_neg he]
  rfl

theorem scanner_missing_end_witness :
    START ∉ ([65] : List Nat) ∧ (9 : Nat) ≠ END ∧
    get_int [3, 120, 121, 9, 7] = .ok (2, [120, 121, 9, 7]) ∧
    get_text [65, 2, 0, 3, 120, 121, 9, 7] = .error .format :=
  ⟨by decide, by decide, rfl,
   scanner_missing_end [65] 0 [3, 120, 121, 9, 7] [120, 121] [7] 9
     (by decide) (by decide) rfl⟩

/-- Claim C4: every required read that would run past the buffer end — the kind
byte after a `START`, a mask-required byte inside `get_int`, or the skip
of the declared payload length together with the trailing `END` byte (a
skip past the buffer end clamps and surfaces at the `END` read) — makes
the decode fail with `TruncatedInputError`; no partial string is returned. -/
theorem scanner_truncation (pre : List Nat) (kind : Nat) (tail : List Nat)
    (hpre : START ∉ pre) :
    get_text (pre ++ [START]) = .error .truncatedInput ∧
    (get_int tail = .error .truncatedInput →
      get_text (pre ++ START :: kind :: tail) = .error .truncatedInput) ∧
    (∀ (len : Int) (rest2 : List Nat), get_int tail = .ok (len, rest2) →
      pyRead len rest2 = [] →
      get_text (pre ++ START :: kind :: tail) = .error .truncatedInput) := by
  refine ⟨?_, ?_, ?_⟩
  · apply get_text_error
    rw [scanBytes_append_of_not_mem hpre, scanBytes_cons_start]
    rfl
  · intro hgi
    apply get_text_error
    rw [scanBytes_append_of_not_mem hpre, scanBytes_cons_start]
    have hdrop : (kind :: tail).drop 1 = tail := rfl
    rw [hdrop, hgi]
    rfl
  · intro len rest2 hgi hread
    apply get_text_error
    rw [scanBytes_append_of_not_mem hpre, scanBytes_cons_start]
    have hdrop : (kind :: tail).drop 1 = tail := rfl
    rw [hdrop, hgi]
    simp only [hread]
    rfl

theorem scanner_truncation_witness :
    START ∉ ([] : List Nat) ∧
    get_text [2] = .error .truncatedInput ∧
    get_int [0xD7] = .error .truncatedInput ∧
    get_text [2, 0, 0xD7] = .error .truncatedInput ∧
    get_int [5, 9] = .ok (4, [9]) ∧
    pyRead 4 [9] = [] ∧
    get_text [2, 0, 5, 9] = .error .truncatedInput :=
  ⟨by decide, (scanner_truncation [] 0 [0xD7] (by decide)).1,
   rfl, (scanner_truncation [] 0 [0xD7] (by decide)).2.1 rfl,
   rfl, rfl, (scanner_truncation [] 0 [5, 9] (by decide)).2.2 4 [9] rfl rfl⟩

/-- Claim C5: on a buffer containing no `START` byte the scanner appends every
byte unchanged to the literal accumulator, and `get_text` returns exactly
the strict UTF-8 decoding of the buffer, failing with `EncodingError`
precisely when the bytes are not valid UTF-8. -/
theorem scanner_passthrough (input : List Nat) (h : START ∉ input) :
    scanBytes input = .ok input ∧
    get_text input = (match utf8Decode input with
      | none => Except.error DecodeError.encoding
      | some cs => Except.ok (String.mk cs)) := by
  have hs := scanBytes_no_start h
  exact ⟨hs, get_text_ok_scan hs⟩

theorem scanner_passthrough_witness :
    START ∉ ([72, 105] : List Nat) ∧ START ∉ ([255] : List Nat) ∧
    scanBytes [72, 105] = .ok [72, 105] ∧ get_text [72, 105] = .ok "Hi" ∧
    get_text [255] = .error .encoding :=
  ⟨by decide, by decide, (scanner_passthrough [72, 105] (by decide)).1,
   (scanner_passthrough [72, 105] (by decide)).2,
   (scanner_passthrough [255] (by decide)).2⟩

/-- Claim C6: the seven-byte buffer `'H','i',0x02,0x00,0x01,0x03,'!'` decodes to
`"Hi!"`; the block's length marker `0x01` decodes through the small-value
branch of `get_int` to length `0`. -/
theorem hi_example_decode :
    get_text [72, 105, 2, 0, 1, 3, 33] = .ok "Hi!" ∧ get_int [1] = .ok (0, []) :=
  ⟨rfl, rfl⟩

/-- Claim C9: the scanner loop terminates in a single linear pass: each
iteration consumes at least the byte it reads, so a fuel of one step per
input byte is always enough — with at least `input.length` fuel the scan
never runs out (`isSome`) and its result no longer depends on the fuel. -/
theorem scanner_terminates (input : List Nat) (fuel : Nat)
    (h : input.length ≤ fuel) :
    (scanGo fuel input).isSome = true ∧
    scanGo fuel input = scanGo input.length input :=
  ⟨scanGo_isSome fuel input h, scanGo_fuel_eq fuel input.length input h (Nat.le_refl _)⟩

theorem scanner_terminates_witness :
    ([2, 0, 1, 3] : List Nat).length ≤ 10 ∧
    ((scanGo 10 [2, 0, 1, 3]).isSome = true ∧
     scanGo 10 [2, 0, 1, 3] = scanGo ([2, 0, 1, 3] : List Nat).length [2, 0, 1, 3]) :=
  ⟨by decide, scanner_terminates [2, 0, 1, 3] 10 (by decide)⟩

/-- Claim C10: a block length-marker byte `0x00` decodes through `get_int` to
`-1`; the scanner's `cursor.read(-1)` then consumes the whole remainder of
the buffer, so the following `END` read always runs past the end — every
buffer whose block length-marker is `0x00` fails with
`TruncatedInputError`, never decoding successfully. -/
theorem zero_marker_block (tail pre : List Nat) (kind : Nat)
    (hpre : START ∉ pre) :
    get_int (0 :: tail) = .ok (-1, tail) ∧
    (∀ l : List Nat, pyRead (-1) l = []) ∧
    get_text (pre ++ START :: kind :: 0 :: tail) = .error .truncatedInput := by
  refine ⟨rfl, fun l => rfl, ?_⟩
  apply get_text_error
  rw [scanBytes_append_of_not_mem hpre, scanBytes_cons_start]
  have hdrop : (kind :: 0 :: tail).drop 1 = 0 :: tail := rfl
  rw [hdrop]
  have hgi : get_int (0 :: tail) = .ok (-1, tail) := rfl
  rw [hgi]
  rfl

theorem zero_marker_block_witness :
    START ∉ ([65] : List Nat) ∧
    (get_int [0, 7, 7] = .ok (-1, [7, 7]) ∧
     (∀ l : List Nat, pyRead (-1) l = []) ∧
     get_text [65, 2, 0, 0, 7, 7] = .error .truncatedInput) :=
  ⟨by decide, zero_marker_block [7, 7] [65] 0 (by decide)⟩

/-- Claim C7: the content field is the decoded text with the substitution table
applied in order (each step's output feeding the next), then every
`"\r\n"`, then every remaining `"\r"`, then every remaining `"\n"`
replaced by a single space, then leading/trailing whitespace trimmed; in
particular the literal text `"line1\r\nline2\rline3\n"` becomes
`"line1 line2 line3"`. -/
theorem content_normalization (table : List (String × String)) (it : ReportItem)
    (c : String) (out : ProcessedItem)
    (hc : get_text it.content = .ok c)
    (hout : process_item table it = .ok out) :
    out.content = pyStrip (collapseNewlines (do_replacements table c)) ∧
    collapseNewlines (do_replacements table c) =
      pyReplace (pyReplace (pyReplace (do_replacements table c) "\r\n" " ")
        "\r" " ") "\n" " " ∧
    (∀ (p : String × String) (ps : List (String × String)) (t : String),
      do_replacements (p :: ps) t = do_replacements ps (pyReplace t p.1 p.2)) ∧
    pyStrip (collapseNewlines "line1\r\nline2\rline3\n") = "line1 line2 line3" := by
  refine ⟨?_, rfl, fun p ps t => rfl, rfl⟩
  unfold process_item at hout
  cases hs : get_text it.sender with
  | error e =>
    rw [hs] at hout
    have hbad : (Except.error e : Except DecodeError ProcessedItem) = .ok out := hout
    exact Except.noConfusion hbad
  | ok s =>
    rw [hs, hc] at hout
    have h2 : Except.ok (⟨do_replacements table s,
        pyStrip (collapseNewlines (do_replacements table c)),
        it.type, it.reason, it.suggested_classification, it.id⟩ : ProcessedItem) =
        Except.ok out := hout
    injection h2 with h3
    rw [← h3]

theorem content_normalization_witness :
    get_text crlfItem.content = .ok "a\r\nb" ∧
    process_item [] crlfItem = .ok crlfProcessed ∧
    (crlfProcessed.content = pyStrip (collapseNewlines (do_replacements [] "a\r\nb")) ∧
     collapseNewlines (do_replacements [] "a\r\nb") =
       pyReplace (pyReplace (pyReplace (do_replacements [] "a\r\nb") "\r\n" " ")
         "\r" " ") "\n" " " ∧
     (∀ (p : String × String) (ps : List (String × String)) (t : String),
       do_replacements (p :: ps) t = do_replacements ps (pyReplace t p.1 p.2)) ∧
     pyStrip (collapseNewlines "line1\r\nline2\rline3\n") = "line1 line2 line3") :=
  ⟨by rfl, by rfl, content_normalization [] crlfItem "a\r\nb" crlfProcessed (by rfl) (by rfl)⟩

/-- Claim C8: the sender field receives only the substitution-table pass — never
the line-terminator collapsing or the trimming applied to the content
field — so carriage returns and newlines in the decoded sender text reach
the output (witnessed by a sender decoding to `"a\r\nb"` that stays
`"a\r\nb"` while the same bytes as content become `"a b"`). -/
theorem sender_untouched (table : List (String × String)) (it : ReportItem)
    (s : String) (out : ProcessedItem)
    (hs : get_text it.sender = .ok s)
    (hout : process_item table it = .ok out) :
    out.sender = do_replacements table s ∧
    ∃ out2 : ProcessedItem, process_item [] crlfItem = .ok out2 ∧
      out2.sender = "a\r\nb" ∧ out2.content = "a b" := by
  refine ⟨?_, ⟨crlfProcessed, by rfl, by rfl, by rfl⟩⟩
  unfold process_item at hout
  cases hcont : get_text it.content with
  | error e =>
    rw [hs, hcont] at hout
    have hbad : (Except.error e : Except DecodeError ProcessedItem) = .ok out := hout
    exact Except.noConfusion hbad
  | ok c =>
    rw [hs, hcont] at hout
    have h2 : Except.ok (⟨do_replacements table s,
        pyStrip (collapseNewlines (do_replacements table c)),
        it.type, it.reason, it.suggested_classification, it.id⟩ : ProcessedItem) =
        Except.ok out := hout
    injection h2 with h3
    rw [← h3]

theorem sender_untouched_witness :
    get_text crlfItem.sender = .ok "a\r\nb" ∧
    process_item [] crlfItem = .ok crlfProcessed ∧
    (crlfProcessed.sender = do_replacements [] "a\r\nb" ∧
     ∃ out2 : ProcessedItem, process_item [] crlfItem = .ok out2 ∧
       out2.sender = "a\r\nb" ∧ out2.content = "a b") :=
  ⟨by rfl, by rfl, sender_untouched [] crlfItem "a\r\nb" crlfProcessed (by rfl) (by rfl)⟩

example : get_text [72, 105, 2, 0, 1, 3, 33] = .ok "Hi!" := by rfl
example : pyReplace "aaa" "aa" "b" = "ba" := by rfl
example : pyStrip (collapseNewlines "line1\r\nline2\rline3\n") = "line1 line2 line3" := by rfl
example : (process_item [] crlfItem).map (fun o => (o.sender, o.content)) =
    .ok ("a\r\nb", "a b") := by rfl
example : get_int [0] = .ok (-1, []) := by rfl
example : get_int [0xDE, 1, 2, 3, 4, 99] =
    .ok (4 + 3 * 256 + 2 * 65536 + 1 * 16777216, [99]) := by rfl
example : get_text [2, 0, 0, 9, 9] = .error .truncatedInput := by rfl
example : get_text [2, 0, 1, 5] = .error .format := by rfl
example : get_text [255] = .error .encoding := by rfl
example : get_text [0xC2, 0xA0, 104, 105] = .ok "\u00A0hi" := by rfl
example : (process_item [] ⟨[104], [0xC2, 0xA0, 104, 105], 0, "", "", ""⟩).map
    (fun o => o.content) = .ok "hi" := by rfl
example : pyStrip "\x1C\u3000a\u2028" = "a" := by rfl
